import Mathlib

/-!
Shallow embedding of the ingestion & reconciliation pipeline of the
finance-control repository (services/expenses_service.py), together with the
data model (models/expense.py) and the text entry point (process_text_input).

Modelling conventions:
* Python floats are modelled as rationals (ℚ); every monetary value appearing
  in the verified claims (4.5, 50, ...) is exactly representable.
* The loosely-typed candidate dictionaries coming from the extraction adapter
  are modelled by `Candidate`, whose `date`, `value` and `in_out` fields hold
  arbitrary `PyVal` values (string / number / structured date / None / other).
  The `description` field is `Option String`: the extraction adapter
  (utils/openai_agent.py, `ExpenseItem.description : str`) guarantees a string
  whenever the key is present.  The upstream `id`/`_id` keys are deleted by the
  service (lines 65-66) before any other step, so they are not represented.
* The MongoDB collection is modelled as a list of stored documents; documents
  written by this service always carry a midnight datetime (the service uses
  `datetime.combine(date, min.time())` both when inserting and when building
  the duplicate-check filter), so the stored timestamp is represented by a
  plain calendar date.
* `insert_many` is an external collaborator; it is passed in as a function
  from the document list to an `InsertResult` (`ok ids`, the per-item result
  set of the store, possibly partial, or `err`, the whole bulk call raising).
* Human-readable error strings are abstracted to structured `ErrEntry` values,
  one constructor per `errors.append` site in the source, recording the item
  index; the truncated-description text of the message is not modelled.
* Python float special spellings (`inf`, `nan`, underscore digit grouping) are
  not modelled by the string-to-float parser; no claim depends on them.
-/

namespace FinanceControl

/-- A calendar date, as produced by `datetime.strptime(s, "%Y-%m-%d").date()`. -/
structure Date where
  year : Nat
  month : Nat
  day : Nat
deriving DecidableEq, Repr

/-- Gregorian leap-year rule used by Python `datetime`. -/
def isLeap (y : Nat) : Bool :=
  (y % 4 = 0 && y % 100 ≠ 0) || y % 400 = 0

/-- Number of days of month `m` of year `y` (Python `calendar` rule). -/
def daysInMonth (y m : Nat) : Nat :=
  if m = 2 then (if isLeap y then 29 else 28)
  else if m = 4 ∨ m = 6 ∨ m = 9 ∨ m = 11 then 30
  else 31

/-- Value of a list of decimal digit characters. -/
def digitsVal (l : List Char) : Nat :=
  l.foldl (fun a c => a * 10 + (c.toNat - 48)) 0

/--
`datetime.strptime(s, "%Y-%m-%d")` followed by `.date()`, as called at
expenses_service.py line 73.  CPython compiles the format to the regex
`(?P<Y>\d\d\d\d)\-(?P<m>1[0-2]|0[1-9]|[1-9])\-(?P<d>3[01]|[12]\d|0[1-9]|[1-9])`
matched against the whole string: exactly four year digits, one or two month
digits with value 1..12, one or two day digits with value 1..31, nothing else;
the datetime constructor then requires `1 ≤ year` and
`day ≤ daysInMonth year month`.
-/
def strptimeYmd (s : String) : Option Date :=
  let cs := s.toList
  let p1 := cs.span Char.isDigit
  match p1.2 with
  | '-' :: r2 =>
    let p2 := r2.span Char.isDigit
    match p2.2 with
    | '-' :: r4 =>
      let p3 := r4.span Char.isDigit
      if p3.2 = [] ∧ p1.1.length = 4 ∧ 1 ≤ p2.1.length ∧ p2.1.length ≤ 2
          ∧ 1 ≤ p3.1.length ∧ p3.1.length ≤ 2 then
        let y := digitsVal p1.1
        let m := digitsVal p2.1
        let d := digitsVal p3.1
        if 1 ≤ y ∧ 1 ≤ m ∧ m ≤ 12 ∧ 1 ≤ d ∧ d ≤ daysInMonth y m then
          some ⟨y, m, d⟩
        else none
      else none
    | _ => none
  | _ => none

/-- The whitespace characters stripped by Python `str.strip()` (ASCII part). -/
def pyIsSpace (c : Char) : Bool :=
  c = ' ' || c = '\t' || c = '\n' || c = '\x0d' || c = '\x0b' || c = '\x0c'

/-- `not text_data or not text_data.strip()` (expenses_service.py line 296):
true iff the string is empty or consists of whitespace only. -/
def isBlank (s : String) : Bool :=
  s.toList.all pyIsSpace

/-- Exponent suffix of a Python float literal: empty, or `e`/`E`, an optional
sign and at least one digit, reaching the end of the string. -/
def parseExpSuffix (cs : List Char) : Option Int :=
  match cs with
  | [] => some 0
  | 'e' :: r => parseExpDigits r
  | 'E' :: r => parseExpDigits r
  | _ => none
where
  parseExpDigits (r : List Char) : Option Int :=
    let q := match r with
      | '+' :: t => ((1 : Int), t)
      | '-' :: t => ((-1 : Int), t)
      | t => (1, t)
    let p := q.2.span Char.isDigit
    if p.1 = [] ∨ p.2 ≠ [] then none
    else some (q.1 * (digitsVal p.1 : Int))

/-- `(10 : ℚ)` raised to an integer power. -/
def powTen : Int → ℚ
  | .ofNat n => (10 : ℚ) ^ n
  | .negSucc n => 1 / (10 : ℚ) ^ (n + 1)

/--
Python `float(s)` for a finite decimal literal: optional surrounding
whitespace, optional sign, digits with an optional fractional part (at least
one digit overall), optional exponent.  (`inf`/`nan` spellings and digit
grouping underscores are not modelled.)
-/
def parsePyFloat (s : String) : Option ℚ :=
  let cs := ((s.toList.dropWhile pyIsSpace).reverse.dropWhile pyIsSpace).reverse
  let sg := match cs with
    | '+' :: r => ((1 : ℚ), r)
    | '-' :: r => ((-1 : ℚ), r)
    | r => (1, r)
  let ipart := sg.2.span Char.isDigit
  match ipart.2 with
  | '.' :: r =>
    let fpart := r.span Char.isDigit
    if ipart.1 = [] ∧ fpart.1 = [] then none
    else
      match parseExpSuffix fpart.2 with
      | some e =>
        some (sg.1 * ((digitsVal ipart.1 * 10 ^ fpart.1.length + digitsVal fpart.1 : Nat) : ℚ)
          / (10 : ℚ) ^ fpart.1.length * powTen e)
      | none => none
  | rest =>
    if ipart.1 = [] then none
    else
      match parseExpSuffix rest with
      | some e => some (sg.1 * ((digitsVal ipart.1 : Nat) : ℚ) * powTen e)
      | none => none

/-- A dynamically-typed Python value, as found in a raw candidate mapping.
`other` stands for any object of a type the pipeline never converts
successfully (list, dict, ...). -/
inductive PyVal where
  | str (s : String)
  | num (q : ℚ)
  | date (d : Date)
  | none
  | other
deriving DecidableEq, Repr

/-- `dict.get(key)`: an absent key reads as Python `None`. -/
def candGet : Option PyVal → PyVal
  | Option.none => PyVal.none
  | Option.some v => v

/-- A raw candidate record handed to `add_multiple_expenses_to_db`
(one element of `expenses_data`). -/
structure Candidate where
  date : Option PyVal := Option.none
  description : Option String := Option.none
  value : Option PyVal := Option.none
  in_out : Option PyVal := Option.none
deriving DecidableEq, Repr

/-- The validated transaction record (models/expense.py `Expense`); the `id`
field is always `None` at this stage (stripped on input, excluded on dump) and
is omitted. -/
structure Expense where
  date : Date
  description : String
  value : ℚ
  in_out : String
deriving DecidableEq, Repr

/-- A document of the MongoDB collection as written by this service:
`model_dump` plus the date converted to a midnight datetime. -/
structure StoredDoc where
  date : Date
  description : String
  value : ℚ
  in_out : String
deriving DecidableEq, Repr

/-- `model_dump` + `datetime.combine(model.date, datetime.min.time())`
(expenses_service.py lines 147-149). -/
def toDoc (e : Expense) : StoredDoc :=
  ⟨e.date, e.description, e.value, e.in_out⟩

/-- One entry of the `errors` list; one constructor per `errors.append` site
of `add_multiple_expenses_to_db`, recording the item index. -/
inductive ErrEntry where
  | invalidDateFormat (idx : Nat)
  | invalidDateType (idx : Nat)
  | missingDate (idx : Nat)
  | invalidValue (idx : Nat)
  | validationError (idx : Nat)
  | unexpectedError (idx : Nat)
  | bulkInsertError
deriving DecidableEq, Repr

/-- Whether an error entry is one of the three date-rejection messages. -/
def ErrEntry.isDateErr : ErrEntry → Bool
  | .invalidDateFormat _ => true
  | .invalidDateType _ => true
  | .missingDate _ => true
  | _ => false

/-- Outcome of processing one candidate of the loop body (lines 60-139). -/
inductive ItemOutcome where
  | accepted (e : Expense)
  | dupSkipped (d : Date) (descTrunc : String)
  | rejected (err : ErrEntry)
deriving DecidableEq, Repr

/--
Mongo equality of one stored document against the duplicate-check filter
`{date: midnight(parsed_date), description: raw description, value: raw value}`
(lines 95-100).  A `None` filter value only matches documents lacking the
field or holding null; documents written by this service always carry a string
description and a double value, so `None`, strings (for `value`), dates and
other objects match nothing.
-/
def dupMatches (doc : StoredDoc) (d : Date) (desc : Option String) (v : PyVal) : Bool :=
  doc.date = d
    && (match desc with
        | Option.some s => doc.description = s
        | Option.none => false)
    && (match v with
        | .num q => doc.value = q
        | _ => false)

/-- `collection.find_one(duplicate_check_filter)` returning a hit (line 101). -/
def findDup (store : List StoredDoc) (d : Date) (desc : Option String) (v : PyVal) : Bool :=
  store.any (fun doc => dupMatches doc d desc v)

/-- `float(value_input)` (line 111): numbers pass through, strings are parsed,
every other type raises `TypeError`. -/
def pyFloat : PyVal → Option ℚ
  | .num q => Option.some q
  | .str s => parsePyFloat s
  | _ => Option.none

/-- `'in_out' not in expense_data or expense_data['in_out'] not in ['in', 'out']`
(line 118): the supplied direction is absent or invalid, so it gets derived
from the sign of the value. -/
def dirNotSupplied (c : Candidate) : Bool :=
  match c.in_out with
  | Option.some (.str s) => !(s = "in" || s = "out")
  | _ => true

/-- The result of `datetime.strptime`-based date handling of lines 68-91:
the parsed calendar date, if the candidate passes the date step. -/
def dateOf (c : Candidate) : Option Date :=
  match candGet c.date with
  | .str s => strptimeYmd s
  | .date d => Option.some d
  | _ => Option.none

/-- Steps of the loop body after a successful date parse: duplicate check
(lines 93-106), value coercion (108-115), direction resolution (117-119),
Pydantic validation (121-122, which — given the steps already performed —
fails exactly when `description` is absent), sign inversion (124-128). -/
def processAfterDate (saf invert : Bool) (store : List StoredDoc) (idx : Nat)
    (c : Candidate) (d : Date) : ItemOutcome :=
  if saf = false ∧ findDup store d c.description (candGet c.value) = true then
    .dupSkipped d ((c.description.getD "").take 20)
  else
    match pyFloat (candGet c.value) with
    | Option.none => .rejected (.invalidValue idx)
    | Option.some q =>
      let dir : String :=
        if dirNotSupplied c then (if 0 ≤ q then "in" else "out")
        else (match candGet c.in_out with | .str s => s | _ => "")
      match c.description with
      | Option.none => .rejected (.validationError idx)
      | Option.some desc =>
        if invert then
          .accepted ⟨d, desc, -q, if 0 ≤ -q then "in" else "out"⟩
        else
          .accepted ⟨d, desc, q, dir⟩

/-- The loop body of `add_multiple_expenses_to_db` for one candidate
(lines 60-139). -/
def processItem (saf invert : Bool) (store : List StoredDoc) (idx : Nat)
    (c : Candidate) : ItemOutcome :=
  match candGet c.date with
  | .str s =>
    match strptimeYmd s with
    | Option.none => .rejected (.invalidDateFormat idx)
    | Option.some d => processAfterDate saf invert store idx c d
  | .date d => processAfterDate saf invert store idx c d
  | .none => .rejected (.missingDate idx)
  | _ => .rejected (.invalidDateType idx)

/-- Whether processing the candidate performs a `find_one` duplicate-check
read against the store: persistence is active and the date step succeeded. -/
def didDupCheck (saf : Bool) (c : Candidate) : Bool :=
  !saf && (dateOf c).isSome

/-- Accumulator of the candidate loop: accepted models, duplicate counter and
descriptors, error list, plus an instrumentation counter of `find_one` calls. -/
structure LoopState where
  accepted : List Expense
  skippedCount : Nat
  errors : List ErrEntry
  dupsInfo : List (Date × String)
  dupChecks : Nat
deriving DecidableEq, Repr

/-- Append one error entry to the loop state. -/
def addErr (st : LoopState) (e : ErrEntry) : LoopState :=
  { st with errors := st.errors ++ [e] }

/-- Effect of one loop iteration on the accumulator: count the `find_one`
read, then record the outcome of the item in the matching bucket. -/
def stepState (saf invert : Bool) (store : List StoredDoc) (idx : Nat)
    (c : Candidate) (st : LoopState) : LoopState :=
  let st1 := { st with dupChecks := st.dupChecks + (if didDupCheck saf c then 1 else 0) }
  match processItem saf invert store idx c with
  | .accepted e => { st1 with accepted := st1.accepted ++ [e] }
  | .dupSkipped d s =>
    { st1 with skippedCount := st1.skippedCount + 1, dupsInfo := st1.dupsInfo ++ [(d, s)] }
  | .rejected err => { st1 with errors := st1.errors ++ [err] }

/-- The candidate loop (`for item_index, expense_data in enumerate(...)`),
threading the accumulator; the store is only read, never written, inside the
loop, so it stays constant. -/
def processLoop (saf invert : Bool) (store : List StoredDoc) :
    Nat → List Candidate → LoopState → LoopState
  | _, [], st => st
  | idx, c :: rest, st =>
    processLoop saf invert store (idx + 1) rest (stepState saf invert store idx c st)

/-- The empty accumulator of lines 54-58. -/
def initState : LoopState := ⟨[], 0, [], [], 0⟩

/-- Result of the collaborator's `insert_many` bulk call: the store's own
per-item result set (possibly partial), or the whole call raising. -/
inductive InsertResult where
  | ok (insertedIds : List String)
  | err
deriving DecidableEq, Repr

/-- Outcome of the conditional DB-insertion phase (lines 141-170). -/
structure InsertPhaseOut where
  added : Nat
  ids : List String
  errors2 : List ErrEntry
  attempts : Nat
deriving DecidableEq, Repr

/-- Lines 141-170: bulk insert attempted once iff persistence is active and at
least one model was accepted; success reads `len(result.inserted_ids)`, an
exception appends one error entry and leaves the added count at zero. -/
def insertPhase (saf : Bool) (st : LoopState)
    (ins : List StoredDoc → InsertResult) : InsertPhaseOut :=
  if saf = false ∧ st.accepted ≠ [] then
    match ins (st.accepted.map toDoc) with
    | .ok ids => ⟨ids.length, ids, st.errors, 1⟩
    | .err => ⟨0, [], st.errors ++ [.bulkInsertError], 1⟩
  else ⟨0, [], st.errors, 0⟩

/-- The structure returned by `add_multiple_expenses_to_db` (lines 190-199),
plus the document list prepared for the store (`valid_expenses_for_db`) and
two instrumentation counters of store interactions. -/
structure BatchResult where
  status : String
  added_count : Nat
  processed_count : Nat
  skipped_count : Nat
  errors : List ErrEntry
  duplicates_info : List (Date × String)
  inserted_ids : List String
  processed_expenses : List Expense
  docsForDb : List StoredDoc
  dupChecks : Nat
  insertAttempts : Nat
deriving DecidableEq, Repr

/-- Status classification of lines 172-180. -/
def finalStatus (errors2 : List ErrEntry) (added : Nat) (saf : Bool)
    (acceptedModels : List Expense) : String :=
  if errors2 = [] ∧ (0 < added ∨ saf = true) then "success"
  else if errors2 ≠ [] ∧ (0 < added ∨ (saf = true ∧ acceptedModels ≠ [])) then "partial_success"
  else if acceptedModels = [] ∧ errors2 = [] then "no_data"
  else "error"

/-- Assembly of the outcome structure after the loop (lines 141-199). -/
def mkResult (saf : Bool) (st : LoopState)
    (ins : List StoredDoc → InsertResult) : BatchResult :=
  let ph := insertPhase saf st ins
  { status := finalStatus ph.errors2 ph.added saf st.accepted
    added_count := ph.added
    processed_count := st.accepted.length
    skipped_count := st.skippedCount
    errors := ph.errors2
    duplicates_info := st.dupsInfo
    inserted_ids := ph.ids
    processed_expenses := st.accepted
    docsForDb := if saf = false ∧ st.accepted ≠ [] then st.accepted.map toDoc else []
    dupChecks := st.dupChecks
    insertAttempts := ph.attempts }

/--
`add_multiple_expenses_to_db(collection, expenses_data, invert_signs,
save_at_front)` (expenses_service.py lines 42-199).  The collection is the
pair of the current document list `store` and the bulk-insert behaviour `ins`.
The early return for an empty input list (lines 49-51) is reproduced; the
source dictionary of that branch carries no `processed_count` key, modelled
here as 0.
-/
def addMultipleExpensesToDb (store : List StoredDoc) (expensesData : List Candidate)
    (invertSigns saveAtFront : Bool) (ins : List StoredDoc → InsertResult) : BatchResult :=
  if expensesData = [] then
    { status := "no_data", added_count := 0, processed_count := 0, skipped_count := 0,
      errors := [], duplicates_info := [], inserted_ids := [], processed_expenses := [],
      docsForDb := [], dupChecks := 0, insertAttempts := 0 }
  else
    mkResult saveAtFront (processLoop saveAtFront invertSigns store 0 expensesData initState) ins

/-- A fully-succeeding `insert_many` behaviour: every document is written and
gets an identity. -/
def insertAll : List StoredDoc → InsertResult :=
  fun docs => .ok (docs.map (fun _ => "oid"))

/-- What `process_text_input` produces for the caller: the `ValueError` raised
on blank input, the fixed no-actionable-data response, or the batch outcome. -/
inductive TextResult where
  | emptyInput
  | noData
  | batch (r : BatchResult)
deriving Repr

/-- A run of `process_text_input`, with instrumentation counters of how many
times each external capability was invoked. -/
structure TextRun where
  result : TextResult
  signConvCalls : Nat
  extractCalls : Nat
deriving Repr

/--
`process_text_input(collection, text_data, save_at_front)` (lines 283-330).
The two external capabilities are oracles: `signOracle` is the boolean
`determine_sign_convention` would resolve to, `extractOracle` the candidate
list `process_text_with_agent` would return.
-/
def processTextInput (store : List StoredDoc) (textData : String) (saveAtFront : Bool)
    (signOracle : Bool) (extractOracle : List Candidate)
    (ins : List StoredDoc → InsertResult) : TextRun :=
  if isBlank textData then ⟨.emptyInput, 0, 0⟩
  else if extractOracle = [] then ⟨.noData, 1, 1⟩
  else ⟨.batch (addMultipleExpensesToDb store extractOracle signOracle saveAtFront ins), 1, 1⟩

/-- Negation of an accepted record as performed by lines 125-128: the value is
negated and the direction re-derived from the sign of the new value. -/
def invertExpense (e : Expense) : Expense :=
  ⟨e.date, e.description, -e.value, if 0 ≤ -e.value then "in" else "out"⟩

/-- The claim's literal reading of "exact YYYY-MM-DD format": four digits, a
dash, two digits, a dash, two digits, nothing else. -/
def specExactYmd (s : String) : Bool :=
  match s.toList with
  | [a, b, c, d, '-', e, f, '-', g, h] =>
    [a, b, c, d, e, f, g, h].all Char.isDigit
  | _ => false

/-- Apply a function to the record of an `accepted` outcome, leaving the other
outcomes unchanged. -/
def mapAccepted (f : Expense → Expense) : ItemOutcome → ItemOutcome
  | .accepted e => .accepted (f e)
  | o => o

/-- Negate every accepted record of a loop state. -/
def invState (st : LoopState) : LoopState :=
  { st with accepted := st.accepted.map invertExpense }

/-- The direction tag of a record agrees with the sign of its value under the
canonical convention (non-negative value means "in", negative means "out"). -/
def dirConsistent (e : Expense) : Prop :=
  (0 ≤ e.value → e.in_out = "in") ∧ (e.value < 0 → e.in_out = "out")

/-! ### Shared lemmas about the candidate loop -/

theorem stepState_accepted (saf invert : Bool) (store : List StoredDoc) (idx : Nat)
    (c : Candidate) (st : LoopState) :
    (stepState saf invert store idx c st).accepted
      = st.accepted ++ (match processItem saf invert store idx c with
          | .accepted e => [e]
          | _ => []) := by
  cases hpi : processItem saf invert store idx c <;> simp [stepState, hpi]

theorem stepState_errors (saf invert : Bool) (store : List StoredDoc) (idx : Nat)
    (c : Candidate) (st : LoopState) :
    (stepState saf invert store idx c st).errors
      = st.errors ++ (match processItem saf invert store idx c with
          | .rejected err => [err]
          | _ => []) := by
  cases hpi : processItem saf invert store idx c <;> simp [stepState, hpi]

theorem stepState_skipped (saf invert : Bool) (store : List StoredDoc) (idx : Nat)
    (c : Candidate) (st : LoopState) :
    (stepState saf invert store idx c st).skippedCount
      = st.skippedCount + (match processItem saf invert store idx c with
          | .dupSkipped _ _ => 1
          | _ => 0) := by
  cases hpi : processItem saf invert store idx c <;> simp [stepState, hpi]

theorem stepState_dupChecks (saf invert : Bool) (store : List StoredDoc) (idx : Nat)
    (c : Candidate) (st : LoopState) :
    (stepState saf invert store idx c st).dupChecks
      = st.dupChecks + (if didDupCheck saf c then 1 else 0) := by
  cases hpi : processItem saf invert store idx c <;> simp [stepState, hpi]

theorem processLoop_count (saf invert : Bool) (store : List StoredDoc) :
    ∀ (l : List Candidate) (idx : Nat) (st : LoopState),
      (processLoop saf invert store idx l st).accepted.length
          + (processLoop saf invert store idx l st).skippedCount
          + (processLoop saf invert store idx l st).errors.length
        = st.accepted.length + st.skippedCount + st.errors.length + l.length := by
  intro l
  induction l with
  | nil => intro idx st; simp [processLoop]
  | cons c rest ih =>
    intro idx st
    simp only [processLoop]
    rw [ih]
    rw [stepState_accepted, stepState_errors, stepState_skipped]
    cases hpi : processItem saf invert store idx c <;> simp [hpi] <;> omega

theorem processLoop_accepted_mono (saf invert : Bool) (store : List StoredDoc) :
    ∀ (l : List Candidate) (idx : Nat) (st : LoopState),
      ∃ t, (processLoop saf invert store idx l st).accepted = st.accepted ++ t := by
  intro l
  induction l with
  | nil => intro idx st; exact ⟨[], by simp [processLoop]⟩
  | cons c rest ih =>
    intro idx st
    simp only [processLoop]
    obtain ⟨t, ht⟩ := ih (idx + 1) (stepState saf invert store idx c st)
    refine ⟨(match processItem saf invert store idx c with
      | ItemOutcome.accepted e => [e]
      | _ => []) ++ t, ?_⟩
    rw [ht, stepState_accepted, List.append_assoc]

theorem processLoop_errors_mono (saf invert : Bool) (store : List StoredDoc) :
    ∀ (l : List Candidate) (idx : Nat) (st : LoopState),
      ∃ t, (processLoop saf invert store idx l st).errors = st.errors ++ t := by
  intro l
  induction l with
  | nil => intro idx st; exact ⟨[], by simp [processLoop]⟩
  | cons c rest ih =>
    intro idx st
    simp only [processLoop]
    obtain ⟨t, ht⟩ := ih (idx + 1) (stepState saf invert store idx c st)
    refine ⟨(match processItem saf invert store idx c with
      | ItemOutcome.rejected err => [err]
      | _ => []) ++ t, ?_⟩
    rw [ht, stepState_errors, List.append_assoc]

theorem processLoop_append (saf invert : Bool) (store : List StoredDoc) :
    ∀ (l1 l2 : List Candidate) (idx : Nat) (st : LoopState),
      processLoop saf invert store idx (l1 ++ l2) st
        = processLoop saf invert store (idx + l1.length) l2
            (processLoop saf invert store idx l1 st) := by
  intro l1
  induction l1 with
  | nil => intro l2 idx st; simp [processLoop]
  | cons c rest ih =>
    intro l2 idx st
    simp only [List.cons_append, processLoop, List.length_cons]
    have harith : idx + (rest.length + 1) = (idx + 1) + rest.length := by omega
    rw [harith]
    exact ih l2 (idx + 1) _

/-! ### Lemmas about a single item -/

theorem processAfterDate_true_store (invert : Bool) (store store' : List StoredDoc)
    (idx : Nat) (c : Candidate) (d : Date) :
    processAfterDate true invert store idx c d = processAfterDate true invert store' idx c d := by
  simp [processAfterDate]

theorem processItem_true_store (invert : Bool) (store store' : List StoredDoc)
    (idx : Nat) (c : Candidate) :
    processItem true invert store idx c = processItem true invert store' idx c := by
  unfold processItem
  cases hc : candGet c.date <;> rfl

theorem processItem_true_ne_dup (invert : Bool) (store : List StoredDoc)
    (idx : Nat) (c : Candidate) (d : Date) (s : String) :
    processItem true invert store idx c ≠ .dupSkipped d s := by
  unfold processItem
  cases hc : candGet c.date <;> try simp
  case str str =>
    cases hs : strptimeYmd str <;> simp [processAfterDate]
    cases hv : pyFloat (candGet c.value) <;> simp
    cases hd : c.description <;> simp
    cases invert <;> simp
  case date dd =>
    simp [processAfterDate]
    cases hv : pyFloat (candGet c.value) <;> simp
    cases hd : c.description <;> simp
    cases invert <;> simp

theorem stepState_true_frame (invert : Bool) (store store' : List StoredDoc)
    (idx : Nat) (c : Candidate) (st : LoopState) :
    stepState true invert store idx c st = stepState true invert store' idx c st := by
  unfold stepState
  rw [processItem_true_store invert store store']

theorem processLoop_true_frame (invert : Bool) (store store' : List StoredDoc) :
    ∀ (l : List Candidate) (idx : Nat) (st : LoopState),
      processLoop true invert store idx l st = processLoop true invert store' idx l st := by
  intro l
  induction l with
  | nil => intro idx st; rfl
  | cons c rest ih =>
    intro idx st
    simp only [processLoop]
    rw [stepState_true_frame invert store store', ih]

theorem processLoop_true_counters (invert : Bool) (store : List StoredDoc) :
    ∀ (l : List Candidate) (idx : Nat) (st : LoopState),
      (processLoop true invert store idx l st).skippedCount = st.skippedCount
        ∧ (processLoop true invert store idx l st).dupChecks = st.dupChecks := by
  intro l
  induction l with
  | nil => intro idx st; exact ⟨rfl, rfl⟩
  | cons c rest ih =>
    intro idx st
    simp only [processLoop]
    obtain ⟨h1, h2⟩ := ih (idx + 1) (stepState true invert store idx c st)
    rw [h1, h2, stepState_skipped, stepState_dupChecks]
    constructor
    · cases hpi : processItem true invert store idx c <;> simp
      case dupSkipped d s => exact absurd hpi (processItem_true_ne_dup invert store idx c d s)
    · simp [didDupCheck]

/-- With persistence skipped, every non-error outcome is an acceptance, so a
non-empty batch always produces an accepted model or an error. -/
theorem processLoop_true_progress (invert : Bool) (store : List StoredDoc)
    (l : List Candidate) (idx : Nat) (st : LoopState) (hne : l ≠ []) :
    (processLoop true invert store idx l st).accepted ≠ []
      ∨ (processLoop true invert store idx l st).errors ≠ [] := by
  cases l with
  | nil => exact absurd rfl hne
  | cons c rest =>
    simp only [processLoop]
    obtain ⟨ta, hta⟩ := processLoop_accepted_mono true invert store rest (idx + 1)
      (stepState true invert store idx c st)
    obtain ⟨te, hte⟩ := processLoop_errors_mono true invert store rest (idx + 1)
      (stepState true invert store idx c st)
    rw [hta, hte, stepState_accepted, stepState_errors]
    cases hpi : processItem true invert store idx c <;> simp
    case dupSkipped d s => exact absurd hpi (processItem_true_ne_dup invert store idx c d s)

theorem processAfterDate_invert (saf : Bool) (store : List StoredDoc) (idx : Nat)
    (c : Candidate) (d : Date) :
    processAfterDate saf true store idx c d
      = mapAccepted invertExpense (processAfterDate saf false store idx c d) := by
  unfold processAfterDate
  by_cases h : saf = false ∧ findDup store d c.description (candGet c.value) = true
  · simp [h, mapAccepted]
  · simp only [if_neg h]
    cases hv : pyFloat (candGet c.value) <;> simp [mapAccepted]
    cases hd : c.description <;> simp [mapAccepted, invertExpense]

theorem processItem_invert (saf : Bool) (store : List StoredDoc) (idx : Nat)
    (c : Candidate) :
    processItem saf true store idx c
      = mapAccepted invertExpense (processItem saf false store idx c) := by
  unfold processItem
  cases hc : candGet c.date <;> try simp [mapAccepted]
  case str s =>
    cases hs : strptimeYmd s <;> simp [mapAccepted, processAfterDate_invert]
  case date d =>
    exact processAfterDate_invert saf store idx c d

theorem stepState_invert (saf : Bool) (store : List StoredDoc) (idx : Nat)
    (c : Candidate) (st : LoopState) :
    stepState saf true store idx c (invState st) = invState (stepState saf false store idx c st) := by
  unfold stepState
  rw [processItem_invert]
  cases hpi : processItem saf false store idx c <;> simp [mapAccepted, invState]

theorem processLoop_invert (saf : Bool) (store : List StoredDoc) :
    ∀ (l : List Candidate) (idx : Nat) (st : LoopState),
      processLoop saf true store idx l (invState st)
        = invState (processLoop saf false store idx l st) := by
  intro l
  induction l with
  | nil => intro idx st; rfl
  | cons c rest ih =>
    intro idx st
    simp only [processLoop]
    rw [stepState_invert, ih]

theorem derived_dirConsistent (d : Date) (desc : String) (v : ℚ) :
    dirConsistent ⟨d, desc, v, if 0 ≤ v then "in" else "out"⟩ := by
  constructor
  · intro h
    simp only [if_pos h]
  · intro h
    simp only [if_neg (not_le.mpr h)]

theorem accepted_dirConsistent (saf invert : Bool) (store : List StoredDoc)
    (idx : Nat) (c : Candidate) (e : Expense)
    (hcase : invert = true ∨ dirNotSupplied c = true)
    (hacc : processItem saf invert store idx c = .accepted e) :
    dirConsistent e := by
  have hafter : ∀ d, processAfterDate saf invert store idx c d = .accepted e → dirConsistent e := by
    intro d h
    unfold processAfterDate at h
    by_cases hdup : saf = false ∧ findDup store d c.description (candGet c.value) = true
    · simp [hdup] at h
    · rw [if_neg hdup] at h
      cases hv : pyFloat (candGet c.value) <;> simp only [hv] at h
      · exact absurd h (by simp)
      · next q =>
        cases hd : c.description <;> simp only [hd] at h
        · exact absurd h (by simp)
        · next desc =>
          cases hinvb : invert
          · have hns : dirNotSupplied c = true := by
              rcases hcase with hcase | hcase
              · rw [hinvb] at hcase
                exact absurd hcase (by simp)
              · exact hcase
            rw [hinvb, hns] at h
            simp only [Bool.false_eq_true, if_false, eq_self_iff_true, if_true,
              ItemOutcome.accepted.injEq] at h
            rw [← h]
            exact derived_dirConsistent d desc q
          · rw [hinvb] at h
            simp only [eq_self_iff_true, if_true, ItemOutcome.accepted.injEq] at h
            rw [← h]
            exact derived_dirConsistent d desc (-q)
  cases hc : candGet c.date <;> simp only [processItem, hc] at hacc
  case str s =>
    cases hs : strptimeYmd s <;> simp only [hs] at hacc
    · exact absurd hacc (by simp)
    · next d => exact hafter d hacc
  case date d => exact hafter d hacc
  case none => exact absurd hacc (by simp)
  case num q => exact absurd hacc (by simp)
  case other => exact absurd hacc (by simp)

theorem mem_processLoop_accepted (saf invert : Bool) (store : List StoredDoc) :
    ∀ (l : List Candidate) (idx : Nat) (st : LoopState) (e : Expense),
      e ∈ (processLoop saf invert store idx l st).accepted →
      e ∈ st.accepted ∨ ∃ j c, c ∈ l ∧ processItem saf invert store j c = .accepted e := by
  intro l
  induction l with
  | nil => intro idx st e h; exact Or.inl h
  | cons c rest ih =>
    intro idx st e h
    simp only [processLoop] at h
    rcases ih (idx + 1) (stepState saf invert store idx c st) e h with h1 | ⟨j, c', hc', hacc⟩
    · rw [stepState_accepted] at h1
      rcases List.mem_append.mp h1 with h2 | h2
      · exact Or.inl h2
      · cases hpi : processItem saf invert store idx c
        case accepted e' =>
          rw [hpi] at h2
          simp at h2
          subst h2
          exact Or.inr ⟨idx, c, by simp, hpi⟩
        case dupSkipped d s => rw [hpi] at h2; simp at h2
        case rejected err => rw [hpi] at h2; simp at h2
    · exact Or.inr ⟨j, c', by simp [hc'], hacc⟩

theorem processItem_eq_afterDate (saf invert : Bool) (store : List StoredDoc)
    (idx : Nat) (c : Candidate) (d : Date) (hd : dateOf c = some d) :
    processItem saf invert store idx c = processAfterDate saf invert store idx c d := by
  cases hc : candGet c.date <;> simp only [dateOf, hc] at hd
  case str s =>
    simp only [processItem, hc]
    cases hs : strptimeYmd s <;> simp [hs] at hd
    simp only [hs]
    rw [hd]
  case date d' =>
    simp only [processItem, hc]
    simp at hd
    rw [hd]
  case none => exact absurd hd (by simp)
  case num q => exact absurd hd (by simp)
  case other => exact absurd hd (by simp)

theorem processItem_dup_of_found (invert : Bool) (store : List StoredDoc)
    (idx : Nat) (c : Candidate) (d : Date) (hd : dateOf c = some d)
    (hf : findDup store d c.description (candGet c.value) = true) :
    processItem false invert store idx c = .dupSkipped d ((c.description.getD "").take 20) := by
  rw [processItem_eq_afterDate false invert store idx c d hd]
  unfold processAfterDate
  rw [if_pos ⟨rfl, hf⟩]

theorem processItem_accepted_inv (saf : Bool) (store : List StoredDoc)
    (idx : Nat) (c : Candidate) (e : Expense)
    (hacc : processItem saf false store idx c = .accepted e) :
    dateOf c = some e.date
      ∧ (saf = false → findDup store e.date c.description (candGet c.value) = false)
      ∧ pyFloat (candGet c.value) = some e.value
      ∧ c.description = some e.description := by
  have hdate : ∃ d, dateOf c = some d := by
    cases hc : candGet c.date <;> simp only [processItem, hc] at hacc
    case str s =>
      cases hs : strptimeYmd s <;> simp only [hs] at hacc
      · exact absurd hacc (by simp)
      · next d => exact ⟨d, by simp [dateOf, hc, hs]⟩
    case date d => exact ⟨d, by simp [dateOf, hc]⟩
    case none => exact absurd hacc (by simp)
    case num q => exact absurd hacc (by simp)
    case other => exact absurd hacc (by simp)
  obtain ⟨d, hd⟩ := hdate
  rw [processItem_eq_afterDate saf false store idx c d hd] at hacc
  unfold processAfterDate at hacc
  by_cases hdup : saf = false ∧ findDup store d c.description (candGet c.value) = true
  · rw [if_pos hdup] at hacc
    exact absurd hacc (by simp)
  · rw [if_neg hdup] at hacc
    cases hv : pyFloat (candGet c.value) <;> simp only [hv] at hacc
    · exact absurd hacc (by simp)
    · next q =>
      cases hdc : c.description <;> simp only [hdc] at hacc
      · exact absurd hacc (by simp)
      · next desc =>
        simp only [Bool.false_eq_true, if_false, ItemOutcome.accepted.injEq] at hacc
        have hedate : e.date = d := by rw [← hacc]
        have hevalue : e.value = q := by rw [← hacc]
        have hedesc : e.description = desc := by rw [← hacc]
        refine ⟨?_, ?_, ?_, ?_⟩
        · rw [hedate]; exact hd
        · intro hsaf
          rw [hedate]
          cases hfd : findDup store d (some desc) (candGet c.value)
          · rfl
          · rw [← hdc] at hfd
            exact absurd ⟨hsaf, hfd⟩ hdup
        · rw [hevalue]
        · rw [hedesc]

theorem processAfterDate_not_bulk (saf invert : Bool) (store : List StoredDoc)
    (idx : Nat) (c : Candidate) (d : Date) :
    processAfterDate saf invert store idx c d ≠ .rejected .bulkInsertError := by
  unfold processAfterDate
  by_cases hdup : saf = false ∧ findDup store d c.description (candGet c.value) = true
  · simp [hdup]
  · rw [if_neg hdup]
    cases hv : pyFloat (candGet c.value)
    · simp
    · cases hdc : c.description
      · simp
      · cases invert <;> simp

theorem processItem_not_bulk (saf invert : Bool) (store : List StoredDoc)
    (idx : Nat) (c : Candidate) :
    processItem saf invert store idx c ≠ .rejected .bulkInsertError := by
  cases hc : candGet c.date <;> simp only [processItem, hc]
  case str s =>
    cases hs : strptimeYmd s <;> simp only [hs]
    · simp
    · next d => exact processAfterDate_not_bulk saf invert store idx c d
  case date d => exact processAfterDate_not_bulk saf invert store idx c d
  case none => simp
  case num q => simp
  case other => simp

theorem processLoop_errors_not_bulk (saf invert : Bool) (store : List StoredDoc) :
    ∀ (l : List Candidate) (idx : Nat) (st : LoopState),
      (∀ er ∈ st.errors, er ≠ ErrEntry.bulkInsertError) →
      ∀ er ∈ (processLoop saf invert store idx l st).errors, er ≠ ErrEntry.bulkInsertError := by
  intro l
  induction l with
  | nil => intro idx st h; exact h
  | cons c rest ih =>
    intro idx st h
    simp only [processLoop]
    refine ih (idx + 1) (stepState saf invert store idx c st) ?_
    intro er her
    rw [stepState_errors] at her
    rcases List.mem_append.mp her with h2 | h2
    · exact h er h2
    · cases hpi : processItem saf invert store idx c
      case accepted e => rw [hpi] at h2; simp at h2
      case dupSkipped dd s => rw [hpi] at h2; simp at h2
      case rejected err =>
        rw [hpi] at h2
        simp at h2
        subst h2
        intro hbad
        rw [hbad] at hpi
        exact processItem_not_bulk saf invert store idx c hpi

/-! ### Lemmas about the insertion phase and the status classification -/

theorem insertPhase_true (st : LoopState) (ins : List StoredDoc → InsertResult) :
    insertPhase true st ins = ⟨0, [], st.errors, 0⟩ := by
  unfold insertPhase
  rw [if_neg]
  intro h
  exact absurd h.1 (by simp)

theorem insertPhase_errors_mem (saf : Bool) (st : LoopState)
    (ins : List StoredDoc → InsertResult) (er : ErrEntry) (h : er ∈ st.errors) :
    er ∈ (insertPhase saf st ins).errors2 := by
  unfold insertPhase
  by_cases hc : saf = false ∧ st.accepted ≠ []
  · rw [if_pos hc]
    cases hres : ins (st.accepted.map toDoc)
    · exact h
    · simp only []
      exact List.mem_append_left _ h
  · rw [if_neg hc]
    exact h

theorem finalStatus_spec (E : List ErrEntry) (A : Nat) (saf : Bool) (acc : List Expense)
    (hA0 : acc = [] → A = 0)
    (hprog : saf = true → acc ≠ [] ∨ E ≠ []) :
    (finalStatus E A saf acc = "no_data" ↔ (acc.length = 0 ∧ E = []))
      ∧ (finalStatus E A saf acc = "success" ↔ (E = [] ∧ (0 < A ∨ saf = true)))
      ∧ (finalStatus E A saf acc = "partial_success"
          ↔ (E ≠ [] ∧ (0 < A ∨ (saf = true ∧ 0 < acc.length))))
      ∧ (finalStatus E A saf acc = "error"
          ↔ (¬(acc.length = 0 ∧ E = []) ∧ ¬(E = [] ∧ (0 < A ∨ saf = true))
              ∧ ¬(E ≠ [] ∧ (0 < A ∨ (saf = true ∧ 0 < acc.length))))) := by
  have hlen : acc.length = 0 ↔ acc = [] := List.length_eq_zero
  have hpos : 0 < acc.length ↔ acc ≠ [] := List.length_pos
  unfold finalStatus
  by_cases h1 : E = [] ∧ (0 < A ∨ saf = true)
  · rw [if_pos h1]
    obtain ⟨hE, hOr⟩ := h1
    have haccne : acc ≠ [] := by
      rcases hOr with hA | hsaf
      · intro hacc
        rw [hA0 hacc] at hA
        exact absurd hA (by omega)
      · rcases hprog hsaf with h | h
        · exact h
        · exact absurd hE h
    refine ⟨?_, ?_, ?_, ?_⟩
    · constructor
      · intro hs; exact absurd hs (by decide)
      · intro ⟨ha, _⟩; exact absurd (hlen.mp ha) haccne
    · exact ⟨fun _ => ⟨hE, hOr⟩, fun _ => rfl⟩
    · constructor
      · intro hs; exact absurd hs (by decide)
      · intro ⟨hEne, _⟩; exact absurd hE hEne
    · constructor
      · intro hs; exact absurd hs (by decide)
      · intro ⟨_, h1n, _⟩; exact absurd ⟨hE, hOr⟩ h1n
  · rw [if_neg h1]
    by_cases h2 : E ≠ [] ∧ (0 < A ∨ (saf = true ∧ acc ≠ []))
    · rw [if_pos h2]
      refine ⟨?_, ?_, ?_, ?_⟩
      · constructor
        · intro hs; exact absurd hs (by decide)
        · intro ⟨_, hE⟩; exact absurd hE h2.1
      · constructor
        · intro hs; exact absurd hs (by decide)
        · intro hx; exact absurd hx h1
      · constructor
        · intro _
          refine ⟨h2.1, ?_⟩
          rcases h2.2 with hA | ⟨hsaf, hne⟩
          · exact Or.inl hA
          · exact Or.inr ⟨hsaf, hpos.mpr hne⟩
        · intro _; rfl
      · constructor
        · intro hs; exact absurd hs (by decide)
        · intro ⟨_, _, h2n⟩
          refine absurd ⟨h2.1, ?_⟩ h2n
          rcases h2.2 with hA | ⟨hsaf, hne⟩
          · exact Or.inl hA
          · exact Or.inr ⟨hsaf, hpos.mpr hne⟩
    · rw [if_neg h2]
      by_cases h3 : acc = [] ∧ E = []
      · rw [if_pos h3]
        refine ⟨?_, ?_, ?_, ?_⟩
        · exact ⟨fun _ => ⟨hlen.mpr h3.1, h3.2⟩, fun _ => rfl⟩
        · constructor
          · intro hs; exact absurd hs (by decide)
          · intro hx; exact absurd hx h1
        · constructor
          · intro hs; exact absurd hs (by decide)
          · intro ⟨hEne, _⟩; exact absurd h3.2 hEne
        · constructor
          · intro hs; exact absurd hs (by decide)
          · intro ⟨h3n, _, _⟩; exact absurd ⟨hlen.mpr h3.1, h3.2⟩ h3n
      · rw [if_neg h3]
        refine ⟨?_, ?_, ?_, ?_⟩
        · constructor
          · intro hs; exact absurd hs (by decide)
          · intro ⟨ha, hE⟩; exact absurd ⟨hlen.mp ha, hE⟩ h3
        · constructor
          · intro hs; exact absurd hs (by decide)
          · intro hx; exact absurd hx h1
        · constructor
          · intro hs; exact absurd hs (by decide)
          · intro ⟨hEne, hOr⟩
            refine absurd ⟨hEne, ?_⟩ h2
            rcases hOr with hA | ⟨hsaf, hposl⟩
            · exact Or.inl hA
            · exact Or.inr ⟨hsaf, hpos.mp hposl⟩
        · constructor
          · intro _
            refine ⟨fun ⟨ha, hE⟩ => absurd ⟨hlen.mp ha, hE⟩ h3, fun hx => absurd hx h1, ?_⟩
            intro ⟨hEne, hOr⟩
            refine absurd ⟨hEne, ?_⟩ h2
            rcases hOr with hA | ⟨hsaf, hposl⟩
            · exact Or.inl hA
            · exact Or.inr ⟨hsaf, hpos.mp hposl⟩
          · intro _; rfl

theorem stepState_rejected_nodate (saf invert : Bool) (store : List StoredDoc)
    (idx : Nat) (c : Candidate) (st : LoopState) (er : ErrEntry)
    (hdn : dateOf c = none) (hpi : processItem saf invert store idx c = .rejected er) :
    stepState saf invert store idx c st = addErr st er := by
  unfold stepState
  rw [hpi]
  simp [didDupCheck, hdn, addErr]

theorem processAfterDate_rejected_kind (saf invert : Bool) (store : List StoredDoc)
    (idx : Nat) (c : Candidate) (d : Date) (er : ErrEntry)
    (h : processAfterDate saf invert store idx c d = .rejected er) :
    er.isDateErr = false := by
  unfold processAfterDate at h
  by_cases hdup : saf = false ∧ findDup store d c.description (candGet c.value) = true
  · rw [if_pos hdup] at h
    exact absurd h (by simp)
  · rw [if_neg hdup] at h
    cases hv : pyFloat (candGet c.value) <;> simp only [hv] at h
    · have her : er = .invalidValue idx := by
        injection h with h'
        exact h'.symm
      rw [her]
      rfl
    · cases hdc : c.description <;> simp only [hdc] at h
      · have her : er = .validationError idx := by
          injection h with h'
          exact h'.symm
        rw [her]
        rfl
      · cases hinvb : invert <;> rw [hinvb] at h <;> exact absurd h (by simp)

/-! ### Claim theorems -/

/--
C6: when persistence is off (`save_at_front` true), processing a batch
performs no store interaction at all — no duplicate-check reads (`dupChecks`
is 0, and the whole result is independent of the store contents and of the
bulk-insert behaviour) and no inserts (`insertAttempts` is 0) — `added_count`
is 0, `inserted_ids` is empty, accepted records are still returned to the
caller (`processed_expenses` carries them, one per processed count), and a
duplicate within the same unpersisted batch is never detected
(`skipped_count` is 0 for every batch, duplicated candidates included).
-/
theorem c6_no_persistence_frame (store store' : List StoredDoc) (batch : List Candidate)
    (invert : Bool) (ins ins' : List StoredDoc → InsertResult) :
    addMultipleExpensesToDb store batch invert true ins
        = addMultipleExpensesToDb store' batch invert true ins'
      ∧ (addMultipleExpensesToDb store batch invert true ins).dupChecks = 0
      ∧ (addMultipleExpensesToDb store batch invert true ins).insertAttempts = 0
      ∧ (addMultipleExpensesToDb store batch invert true ins).added_count = 0
      ∧ (addMultipleExpensesToDb store batch invert true ins).inserted_ids = []
      ∧ (addMultipleExpensesToDb store batch invert true ins).skipped_count = 0
      ∧ (addMultipleExpensesToDb store batch invert true ins).processed_expenses.length
          = (addMultipleExpensesToDb store batch invert true ins).processed_count := by
  by_cases hb : batch = []
  · subst hb
    refine ⟨rfl, ?_, ?_, ?_, ?_, ?_, ?_⟩ <;> simp [addMultipleExpensesToDb]
  · have hcnt := processLoop_true_counters invert store batch 0 initState
    unfold addMultipleExpensesToDb
    simp only [if_neg hb]
    refine ⟨?_, ?_, ?_, ?_, ?_, ?_, ?_⟩
    · rw [processLoop_true_frame invert store store' batch 0 initState]
      simp [mkResult, insertPhase_true]
    · simpa [mkResult] using hcnt.2
    · simp [mkResult, insertPhase_true]
    · simp [mkResult, insertPhase_true]
    · simp [mkResult, insertPhase_true]
    · simpa [mkResult] using hcnt.1
    · simp [mkResult]

/--
C4: when the batch's `invert_signs` flag is true, every accepted candidate's
value is negated and its direction re-derived from the new sign — the
accepted records of the inverting run are exactly the accepted records of the
non-inverting run mapped through `invertExpense` — and in particular a
candidate `{date: "2024-01-05", value: 50, direction: "in"}` becomes
`{value: -50, direction: "out"}`.
-/
theorem c4_invert_negates (store : List StoredDoc) (batch : List Candidate)
    (saf : Bool) (ins : List StoredDoc → InsertResult) :
    (addMultipleExpensesToDb store batch true saf ins).processed_expenses
        = ((addMultipleExpensesToDb store batch false saf ins).processed_expenses).map
            invertExpense
      ∧ (addMultipleExpensesToDb []
            [⟨some (.str "2024-01-05"), some "Subscription", some (.num 50), some (.str "in")⟩]
            true true insertAll).processed_expenses
          = [⟨⟨2024, 1, 5⟩, "Subscription", -50, "out"⟩] := by
  constructor
  · by_cases hb : batch = []
    · subst hb
      simp [addMultipleExpensesToDb]
    · unfold addMultipleExpensesToDb
      simp only [if_neg hb]
      show (processLoop saf true store 0 batch initState).accepted
        = ((processLoop saf false store 0 batch initState).accepted).map invertExpense
      calc (processLoop saf true store 0 batch initState).accepted
          = (processLoop saf true store 0 batch (invState initState)).accepted := rfl
        _ = (invState (processLoop saf false store 0 batch initState)).accepted := by
              rw [processLoop_invert]
        _ = ((processLoop saf false store 0 batch initState).accepted).map invertExpense := rfl
  · rfl

/--
C2 counterexample: the claim fails as stated — with `invert_signs` false, a
candidate supplying a valid direction tag that contradicts the sign of its
value is accepted unchanged: `{value: 50, direction: "out"}` is accepted with
a non-negative final value yet direction "out", so the direction is not
re-derived for supplied tags when no inversion happens.
-/
theorem c2_counterexample :
    ¬ ∀ e ∈ (addMultipleExpensesToDb []
        [⟨some (.str "2024-01-05"), some "Gift", some (.num 50), some (.str "out")⟩]
        false true insertAll).processed_expenses, dirConsistent e := by
  intro h
  have hmem := h ⟨⟨2024, 1, 5⟩, "Gift", 50, "out"⟩ (by decide)
  have h2 := hmem.1 (by norm_num)
  exact absurd h2 (by decide)

/--
C2 (amended): every accepted record of a batch originates from processing one
of the batch's candidates, and for every candidate, whenever the batch's
`invert_signs` flag is set, or that candidate's own direction was absent or
invalid (hence derived from the sign), the record it is accepted as carries a
direction tag consistent with the final, post-inversion sign of the value —
non-negative implies "in", negative implies "out". In a mixed batch this
holds candidate by candidate; a validly supplied direction is kept as-is when
no inversion is applied, even when it contradicts the sign.
-/
theorem c2_direction_consistency (store : List StoredDoc) (batch : List Candidate)
    (saf invert : Bool) (ins : List StoredDoc → InsertResult) :
    (∀ e ∈ (addMultipleExpensesToDb store batch invert saf ins).processed_expenses,
        ∃ j c, c ∈ batch ∧ processItem saf invert store j c = .accepted e)
      ∧ (∀ (j : Nat) (c : Candidate) (e : Expense),
          (invert = true ∨ dirNotSupplied c = true) →
          processItem saf invert store j c = .accepted e →
          dirConsistent e) := by
  constructor
  · intro e he
    by_cases hb : batch = []
    · subst hb
      simp [addMultipleExpensesToDb] at he
    · unfold addMultipleExpensesToDb at he
      rw [if_neg hb] at he
      have he' : e ∈ (processLoop saf invert store 0 batch initState).accepted := he
      rcases mem_processLoop_accepted saf invert store batch 0 initState e he' with
        h0 | ⟨j, c, hcmem, hacc⟩
      · simp [initState] at h0
      · exact ⟨j, c, hcmem, hacc⟩
  · intro j c e hcase hacc
    exact accepted_dirConsistent saf invert store j c e hcase hacc

/-- C2 witness: in a mixed batch under inversion, the record accepted for the
candidate `{value: 50, direction: "in"}` originates from that candidate and is
sign-consistent; a derived-direction candidate is sign-consistent without
inversion too. -/
theorem c2_direction_consistency_witness :
    (∃ j c, c ∈ [(⟨some (.str "2024-01-05"), some "Gift", some (.num 50),
          some (.str "in")⟩ : Candidate),
        ⟨some (.str "2024-01-06"), some "Fee", some (.num 3), some (.str "out")⟩]
        ∧ processItem false true [] j c
            = .accepted ⟨⟨2024, 1, 5⟩, "Gift", -50, "out"⟩)
      ∧ dirConsistent ⟨⟨2024, 1, 5⟩, "Gift", -50, "out"⟩
      ∧ dirConsistent ⟨⟨2024, 1, 7⟩, "Refund", 8, "in"⟩ :=
  ⟨(c2_direction_consistency []
      [⟨some (.str "2024-01-05"), some "Gift", some (.num 50), some (.str "in")⟩,
        ⟨some (.str "2024-01-06"), some "Fee", some (.num 3), some (.str "out")⟩]
      true true insertAll).1
      ⟨⟨2024, 1, 5⟩, "Gift", -50, "out"⟩ (by decide),
    (c2_direction_consistency []
      [⟨some (.str "2024-01-05"), some "Gift", some (.num 50), some (.str "in")⟩,
        ⟨some (.str "2024-01-06"), some "Fee", some (.num 3), some (.str "out")⟩]
      true true insertAll).2 0
      ⟨some (.str "2024-01-05"), some "Gift", some (.num 50), some (.str "in")⟩
      ⟨⟨2024, 1, 5⟩, "Gift", -50, "out"⟩ (Or.inl rfl) (by decide),
    (c2_direction_consistency [] [] false false insertAll).2 0
      ⟨some (.str "2024-01-07"), some "Refund", some (.num 8), none⟩
      ⟨⟨2024, 1, 7⟩, "Refund", 8, "in"⟩ (Or.inr rfl) (by decide)⟩

/--
C8: for every empty or whitespace-only text input, `process_text_input`
raises the input-validation `ValueError` before the sign-convention and
extraction capabilities are invoked: neither dependency is called (both call
counters are zero) and no pipeline outcome structure is produced.
-/
theorem c8_empty_input (store : List StoredDoc) (s : String) (saf sg : Bool)
    (extract : List Candidate) (ins : List StoredDoc → InsertResult)
    (hblank : isBlank s = true) :
    processTextInput store s saf sg extract ins = ⟨TextResult.emptyInput, 0, 0⟩ := by
  unfold processTextInput
  rw [if_pos hblank]

/-- C8 witness: a whitespace-only input string. -/
theorem c8_empty_input_witness :
    processTextInput [] " \t\n" false false
        [⟨some (.str "2024-01-05"), some "X", some (.num 1), none⟩] insertAll
      = ⟨TextResult.emptyInput, 0, 0⟩ :=
  c8_empty_input [] " \t\n" false false
    [⟨some (.str "2024-01-05"), some "X", some (.num 1), none⟩] insertAll (by decide)

/--
C3: after all candidates of a non-empty batch are processed and any
persistence attempt completes, the reported status is exactly: "no_data" iff
zero records were accepted and zero errors occurred; "success" iff zero
errors occurred and at least one record was persisted or persistence was
intentionally skipped; "partial_success" iff at least one error occurred and
at least one record was persisted or accepted while persistence was skipped;
"error" iff none of the previous conditions holds.
-/
theorem c3_status_classification (store : List StoredDoc) (batch : List Candidate)
    (invert saf : Bool) (ins : List StoredDoc → InsertResult) (r : BatchResult)
    (hr : r = addMultipleExpensesToDb store batch invert saf ins)
    (hne : batch ≠ []) :
    (r.status = "no_data" ↔ (r.processed_count = 0 ∧ r.errors = []))
      ∧ (r.status = "success" ↔ (r.errors = [] ∧ (0 < r.added_count ∨ saf = true)))
      ∧ (r.status = "partial_success"
          ↔ (r.errors ≠ [] ∧ (0 < r.added_count ∨ (saf = true ∧ 0 < r.processed_count))))
      ∧ (r.status = "error"
          ↔ (¬(r.processed_count = 0 ∧ r.errors = [])
              ∧ ¬(r.errors = [] ∧ (0 < r.added_count ∨ saf = true))
              ∧ ¬(r.errors ≠ []
                  ∧ (0 < r.added_count ∨ (saf = true ∧ 0 < r.processed_count))))) := by
  subst hr
  unfold addMultipleExpensesToDb
  simp only [if_neg hne]
  have hprog : saf = true →
      (processLoop saf invert store 0 batch initState).accepted ≠ []
        ∨ (processLoop saf invert store 0 batch initState).errors ≠ [] := by
    intro hsaf
    rw [hsaf]
    exact processLoop_true_progress invert store batch 0 initState hne
  by_cases hcond : saf = false
      ∧ (processLoop saf invert store 0 batch initState).accepted ≠ []
  · have hph0 : insertPhase saf (processLoop saf invert store 0 batch initState) ins
        = match ins ((processLoop saf invert store 0 batch initState).accepted.map toDoc) with
          | .ok ids =>
            ⟨ids.length, ids, (processLoop saf invert store 0 batch initState).errors, 1⟩
          | .err =>
            ⟨0, [], (processLoop saf invert store 0 batch initState).errors
              ++ [.bulkInsertError], 1⟩ := by
      unfold insertPhase
      rw [if_pos hcond]
    cases hres : ins ((processLoop saf invert store 0 batch initState).accepted.map toDoc) with
    | ok ids =>
      rw [hres] at hph0
      simp only [mkResult, hph0]
      exact finalStatus_spec _ ids.length saf _
        (fun hacc => absurd hacc hcond.2)
        (fun hsaf => absurd hcond.1 (by rw [hsaf]; simp))
    | err =>
      rw [hres] at hph0
      simp only [mkResult, hph0]
      exact finalStatus_spec _ 0 saf _
        (fun _ => rfl)
        (fun hsaf => absurd hcond.1 (by rw [hsaf]; simp))
  · have hph0 : insertPhase saf (processLoop saf invert store 0 batch initState) ins
        = ⟨0, [], (processLoop saf invert store 0 batch initState).errors, 0⟩ := by
      unfold insertPhase
      rw [if_neg hcond]
    simp only [mkResult, hph0]
    exact finalStatus_spec _ 0 saf _
      (fun _ => rfl)
      hprog

/-- C3 witness: a single accepted and persisted candidate yields "success". -/
theorem c3_status_classification_witness :
    (addMultipleExpensesToDb []
        [⟨some (.str "2024-01-05"), some "Coffee", some (.num 5), some (.str "out")⟩]
        false false insertAll).status = "success" :=
  ((c3_status_classification []
      [⟨some (.str "2024-01-05"), some "Coffee", some (.num 5), some (.str "out")⟩]
      false false insertAll _ rfl (by decide)).2.1).mpr (by decide)

/--
C7: when persistence is active and at least one record is accepted, exactly
one bulk insert is attempted; if the store's bulk call returns its per-item
result set, the persisted count and identity list equal exactly what the
store reported (a partial result yields a partial count), while a total
failure of the bulk call leaves the persisted count at zero, the identity
list empty, and appends exactly one bulk-insert error entry.
-/
theorem c7_bulk_insert (store : List StoredDoc) (batch : List Candidate) (invert : Bool)
    (ins : List StoredDoc → InsertResult) (r : BatchResult)
    (hr : r = addMultipleExpensesToDb store batch invert false ins)
    (hacc : 0 < r.processed_count) :
    r.insertAttempts = 1
      ∧ (∀ ids, ins r.docsForDb = .ok ids → r.added_count = ids.length ∧ r.inserted_ids = ids)
      ∧ (ins r.docsForDb = .err → r.added_count = 0 ∧ r.inserted_ids = []
          ∧ r.errors.count ErrEntry.bulkInsertError = 1) := by
  subst hr
  by_cases hb : batch = []
  · rw [hb] at hacc
    simp [addMultipleExpensesToDb] at hacc
  · unfold addMultipleExpensesToDb at hacc ⊢
    simp only [if_neg hb] at hacc ⊢
    have haccne : (processLoop false invert store 0 batch initState).accepted ≠ [] := by
      intro h0
      have : (processLoop false invert store 0 batch initState).accepted.length = 0 := by
        rw [h0]; rfl
      simp only [mkResult] at hacc
      omega
    have hcond : (false = false)
        ∧ (processLoop false invert store 0 batch initState).accepted ≠ [] := ⟨rfl, haccne⟩
    have hdocs : (mkResult false (processLoop false invert store 0 batch initState) ins).docsForDb
        = (processLoop false invert store 0 batch initState).accepted.map toDoc := by
      simp [mkResult, haccne]
    have hnobulk : ∀ er ∈ (processLoop false invert store 0 batch initState).errors,
        er ≠ ErrEntry.bulkInsertError :=
      processLoop_errors_not_bulk false invert store batch 0 initState (by intro er h; simp [initState] at h)
    have hph0 : insertPhase false (processLoop false invert store 0 batch initState) ins
        = match ins ((processLoop false invert store 0 batch initState).accepted.map toDoc) with
          | .ok ids =>
            ⟨ids.length, ids, (processLoop false invert store 0 batch initState).errors, 1⟩
          | .err =>
            ⟨0, [], (processLoop false invert store 0 batch initState).errors
              ++ [.bulkInsertError], 1⟩ := by
      unfold insertPhase
      rw [if_pos hcond]
    cases hres : ins ((processLoop false invert store 0 batch initState).accepted.map toDoc) with
    | ok ids =>
      rw [hres] at hph0
      refine ⟨by simp [mkResult, hph0], ?_, ?_⟩
      · intro ids' hids'
        rw [hdocs, hres] at hids'
        injection hids' with hids'
        subst hids'
        exact ⟨by simp [mkResult, hph0], by simp [mkResult, hph0]⟩
      · intro hbad
        rw [hdocs, hres] at hbad
        exact absurd hbad (by simp)
    | err =>
      rw [hres] at hph0
      refine ⟨by simp [mkResult, hph0], ?_, ?_⟩
      · intro ids' hids'
        rw [hdocs, hres] at hids'
        exact absurd hids' (by simp)
      · intro _
        refine ⟨by simp [mkResult, hph0], by simp [mkResult, hph0], ?_⟩
        have hmem : ErrEntry.bulkInsertError
            ∉ (processLoop false invert store 0 batch initState).errors := by
          intro hmem
          exact absurd rfl (hnobulk _ hmem)
        simp only [mkResult, hph0]
        rw [List.count_append]
        rw [List.count_eq_zero.mpr hmem]
        rfl

/-- C7 witness: one accepted candidate with a fully succeeding store. -/
theorem c7_bulk_insert_witness :
    (addMultipleExpensesToDb []
        [⟨some (.str "2024-01-05"), some "Coffee", some (.num 5), some (.str "out")⟩]
        false false insertAll).insertAttempts = 1 :=
  (c7_bulk_insert []
      [⟨some (.str "2024-01-05"), some "Coffee", some (.num 5), some (.str "out")⟩]
      false insertAll _ rfl (by decide)).1

/--
C9: for every non-empty input batch, each candidate lands in exactly one
bucket — the accepted set, the duplicate-skipped count, or one appended error
entry — so whenever the bulk insert is skipped or succeeds without raising,
`processed_count` + `skipped_count` + number of errors equals the number of
input candidates.
-/
theorem c9_partition (store : List StoredDoc) (batch : List Candidate) (invert saf : Bool)
    (ins : List StoredDoc → InsertResult) (r : BatchResult)
    (hr : r = addMultipleExpensesToDb store batch invert saf ins)
    (hne : batch ≠ [])
    (hok : r.insertAttempts = 0 ∨ ∃ ids, ins r.docsForDb = .ok ids) :
    r.processed_count + r.skipped_count + r.errors.length = batch.length := by
  subst hr
  unfold addMultipleExpensesToDb at hok ⊢
  simp only [if_neg hne] at hok ⊢
  have hcount := processLoop_count saf invert store batch 0 initState
  rw [show initState.accepted.length = 0 from rfl, show initState.skippedCount = 0 from rfl,
    show initState.errors.length = 0 from rfl] at hcount
  by_cases hcond : saf = false
      ∧ (processLoop saf invert store 0 batch initState).accepted ≠ []
  · have hph0 : insertPhase saf (processLoop saf invert store 0 batch initState) ins
        = match ins ((processLoop saf invert store 0 batch initState).accepted.map toDoc) with
          | .ok ids =>
            ⟨ids.length, ids, (processLoop saf invert store 0 batch initState).errors, 1⟩
          | .err =>
            ⟨0, [], (processLoop saf invert store 0 batch initState).errors
              ++ [.bulkInsertError], 1⟩ := by
      unfold insertPhase
      rw [if_pos hcond]
    have hdocs : (mkResult saf (processLoop saf invert store 0 batch initState) ins).docsForDb
        = (processLoop saf invert store 0 batch initState).accepted.map toDoc := by
      simp [mkResult, hcond.1, hcond.2]
    cases hres : ins ((processLoop saf invert store 0 batch initState).accepted.map toDoc) with
    | ok ids =>
      rw [hres] at hph0
      simp only [mkResult, hph0]
      omega
    | err =>
      rw [hres] at hph0
      rcases hok with hok | ⟨ids, hids⟩
      · simp only [mkResult, hph0] at hok
        exact absurd hok (by decide)
      · rw [hdocs, hres] at hids
        exact absurd hids (by simp)
  · have hph0 : insertPhase saf (processLoop saf invert store 0 batch initState) ins
        = ⟨0, [], (processLoop saf invert store 0 batch initState).errors, 0⟩ := by
      unfold insertPhase
      rw [if_neg hcond]
    simp only [mkResult, hph0]
    omega

/-- C9 witness: a one-candidate batch processed without persistence. -/
theorem c9_partition_witness :
    (addMultipleExpensesToDb []
          [⟨some (.str "2024-01-05"), some "Coffee", some (.num 5), some (.str "out")⟩]
          false true insertAll).processed_count
        + (addMultipleExpensesToDb []
            [⟨some (.str "2024-01-05"), some "Coffee", some (.num 5), some (.str "out")⟩]
            false true insertAll).skipped_count
        + (addMultipleExpensesToDb []
            [⟨some (.str "2024-01-05"), some "Coffee", some (.num 5), some (.str "out")⟩]
            false true insertAll).errors.length = 1 :=
  c9_partition []
    [⟨some (.str "2024-01-05"), some "Coffee", some (.num 5), some (.str "out")⟩]
    false true insertAll _ rfl (by decide) (Or.inl (by decide))

/--
C1 counterexample: the claim fails as stated — with the batch's
`invert_signs` flag true, the first submission of `{date: "2024-01-05",
description: "Salary", value: 50, direction: "in"}` is accepted and persisted
(with the stored value negated to -50), yet resubmitting the very same batch
a second time against the updated store reports no duplicate
(`skipped_count` = 0) and inserts a second copy (`added_count` = 1), because
the duplicate filter is built from the raw value 50 while the store holds
-50.
-/
theorem c1_counterexample :
    (addMultipleExpensesToDb []
          [⟨some (.str "2024-01-05"), some "Salary", some (.num 50), some (.str "in")⟩]
          true false insertAll).added_count = 1
      ∧ (addMultipleExpensesToDb
            ((addMultipleExpensesToDb []
              [⟨some (.str "2024-01-05"), some "Salary", some (.num 50), some (.str "in")⟩]
              true false insertAll).docsForDb)
            [⟨some (.str "2024-01-05"), some "Salary", some (.num 50), some (.str "in")⟩]
            true false insertAll).skipped_count = 0
      ∧ (addMultipleExpensesToDb
            ((addMultipleExpensesToDb []
              [⟨some (.str "2024-01-05"), some "Salary", some (.num 50), some (.str "in")⟩]
              true false insertAll).docsForDb)
            [⟨some (.str "2024-01-05"), some "Salary", some (.num 50), some (.str "in")⟩]
            true false insertAll).added_count = 1 := by
  refine ⟨by decide, by decide, by decide⟩

/--
C1 (amended): for every single-candidate batch whose candidate carries a
numeric (non-string) value, processed with persistence active
(`save_at_front` false), no sign inversion, and accepted and persisted by the
first submission (`added_count` = 1, which also certifies the store held no
prior match), processing the same batch a second time against the updated
store reports the candidate as a duplicate — `skipped_count` = 1 and
`added_count` = 0 — rather than inserting a second copy; duplicate matching
compares identical date, description and value only (direction excluded) and
only when persistence is active.
-/
theorem c1_idempotent_resubmission (store : List StoredDoc) (c : Candidate) (q : ℚ)
    (hv : c.value = some (.num q))
    (h1 : (addMultipleExpensesToDb store [c] false false insertAll).added_count = 1) :
    (addMultipleExpensesToDb
          (store ++ (addMultipleExpensesToDb store [c] false false insertAll).docsForDb)
          [c] false false insertAll).skipped_count = 1
      ∧ (addMultipleExpensesToDb
            (store ++ (addMultipleExpensesToDb store [c] false false insertAll).docsForDb)
            [c] false false insertAll).added_count = 0
      ∧ (addMultipleExpensesToDb
            (store ++ (addMultipleExpensesToDb store [c] false false insertAll).docsForDb)
            [c] false false insertAll).processed_count = 0 := by
  cases hpi : processItem false false store 0 c with
  | dupSkipped d s =>
    simp [addMultipleExpensesToDb, processLoop, stepState, hpi, insertPhase, mkResult,
      initState] at h1
  | rejected er =>
    simp [addMultipleExpensesToDb, processLoop, stepState, hpi, insertPhase, mkResult,
      initState] at h1
  | accepted e =>
    have hdocs : (addMultipleExpensesToDb store [c] false false insertAll).docsForDb
        = [toDoc e] := by
      simp [addMultipleExpensesToDb, processLoop, stepState, hpi, mkResult, initState,
        insertPhase]
    obtain ⟨hd, hnf, hvq, hdesc⟩ := processItem_accepted_inv false store 0 c e hpi
    have hcg : candGet c.value = .num q := by rw [hv]; rfl
    have heq : e.value = q := by
      rw [hcg] at hvq
      simp [pyFloat] at hvq
      exact hvq.symm
    have hfind : findDup (store ++ [toDoc e]) e.date c.description (candGet c.value) = true := by
      simp [findDup, dupMatches, toDoc, hdesc, hcg, heq]
    have hdup2 : processItem false false (store ++ [toDoc e]) 0 c
        = .dupSkipped e.date ((c.description.getD "").take 20) :=
      processItem_dup_of_found false (store ++ [toDoc e]) 0 c e.date hd hfind
    rw [hdocs]
    refine ⟨?_, ?_, ?_⟩ <;>
      simp [addMultipleExpensesToDb, processLoop, stepState, hdup2, mkResult, initState,
        insertPhase]

/-- C1 witness: a numeric-valued candidate persisted once and resubmitted. -/
theorem c1_idempotent_resubmission_witness :
    (addMultipleExpensesToDb
          ([] ++ (addMultipleExpensesToDb []
            [⟨some (.str "2024-01-05"), some "Coffee", some (.num 5), some (.str "out")⟩]
            false false insertAll).docsForDb)
          [⟨some (.str "2024-01-05"), some "Coffee", some (.num 5), some (.str "out")⟩]
          false false insertAll).skipped_count = 1
      ∧ (addMultipleExpensesToDb
            ([] ++ (addMultipleExpensesToDb []
              [⟨some (.str "2024-01-05"), some "Coffee", some (.num 5), some (.str "out")⟩]
              false false insertAll).docsForDb)
            [⟨some (.str "2024-01-05"), some "Coffee", some (.num 5), some (.str "out")⟩]
            false false insertAll).added_count = 0
      ∧ (addMultipleExpensesToDb
            ([] ++ (addMultipleExpensesToDb []
              [⟨some (.str "2024-01-05"), some "Coffee", some (.num 5), some (.str "out")⟩]
              false false insertAll).docsForDb)
            [⟨some (.str "2024-01-05"), some "Coffee", some (.num 5), some (.str "out")⟩]
            false false insertAll).processed_count = 0 :=
  c1_idempotent_resubmission []
    ⟨some (.str "2024-01-05"), some "Coffee", some (.num 5), some (.str "out")⟩
    5 rfl (by decide)

/--
C5 counterexample: the claim fails as stated — the string "2024-1-5" is not
in exact YYYY-MM-DD format (the month and day are single digits), yet the
candidate carrying it is not rejected with a date error: `strptime` with the
`%Y-%m-%d` format accepts one-digit months and days, so the candidate is
accepted with the parsed date 2024-01-05.
-/
theorem c5_counterexample :
    specExactYmd "2024-1-5" = false
      ∧ processItem false false [] 0
          ⟨some (.str "2024-1-5"), some "X", some (.num 10), some (.str "out")⟩
          = .accepted ⟨⟨2024, 1, 5⟩, "X", 10, "out"⟩ := by
  refine ⟨by decide, by decide⟩

/--
C5 (amended): for every candidate whose date is a string not parseable under
the `%Y-%m-%d` rule (exactly four year digits, one-or-two month and day
digits forming a valid calendar date, nothing else), or of a type other than
string or structured date, or absent, the candidate is rejected with the
matching date error — invalid format, invalid type, or missing — which is
appended to the errors list (and survives into the batch result's error
list), the accepted set is unchanged so `processed_count` does not include
it, and processing of subsequent candidates continues; a string parseable
under that rule, or an already-structured date, passes the date step and is
never rejected with a date error.
-/
theorem c5_date_validation (store : List StoredDoc) (saf invert : Bool)
    (ins : List StoredDoc → InsertResult) (idx : Nat) (st : LoopState)
    (rest : List Candidate) (c : Candidate) :
    (∀ s, candGet c.date = .str s → strptimeYmd s = none →
        processLoop saf invert store idx (c :: rest) st
          = processLoop saf invert store (idx + 1) rest (addErr st (.invalidDateFormat idx)))
      ∧ (candGet c.date = .none →
        processLoop saf invert store idx (c :: rest) st
          = processLoop saf invert store (idx + 1) rest (addErr st (.missingDate idx)))
      ∧ (∀ q, candGet c.date = .num q →
        processLoop saf invert store idx (c :: rest) st
          = processLoop saf invert store (idx + 1) rest (addErr st (.invalidDateType idx)))
      ∧ (candGet c.date = .other →
        processLoop saf invert store idx (c :: rest) st
          = processLoop saf invert store (idx + 1) rest (addErr st (.invalidDateType idx)))
      ∧ (∀ pre post s, candGet c.date = .str s → strptimeYmd s = none →
        ErrEntry.invalidDateFormat pre.length
          ∈ (addMultipleExpensesToDb store (pre ++ c :: post) invert saf ins).errors)
      ∧ (∀ d, dateOf c = some d →
        ∀ er, processItem saf invert store idx c = .rejected er → er.isDateErr = false) := by
  have hstep : ∀ (j : Nat) (stj : LoopState) (er : ErrEntry), dateOf c = none →
      processItem saf invert store j c = .rejected er →
      processLoop saf invert store j (c :: rest) stj
        = processLoop saf invert store (j + 1) rest (addErr stj er) := by
    intro j stj er hdn hpi
    simp only [processLoop]
    rw [stepState_rejected_nodate saf invert store j c stj er hdn hpi]
  refine ⟨?_, ?_, ?_, ?_, ?_, ?_⟩
  · intro s h1 h2
    exact hstep idx st _ (by simp [dateOf, h1, h2]) (by simp [processItem, h1, h2])
  · intro h1
    exact hstep idx st _ (by simp [dateOf, h1]) (by simp [processItem, h1])
  · intro q h1
    exact hstep idx st _ (by simp [dateOf, h1]) (by simp [processItem, h1])
  · intro h1
    exact hstep idx st _ (by simp [dateOf, h1]) (by simp [processItem, h1])
  · intro pre post s h1 h2
    have hne : pre ++ c :: post ≠ [] := by simp
    have hdn : dateOf c = none := by simp [dateOf, h1, h2]
    have hpi : processItem saf invert store pre.length c
        = .rejected (.invalidDateFormat pre.length) := by simp [processItem, h1, h2]
    unfold addMultipleExpensesToDb
    simp only [if_neg hne]
    have hloop : processLoop saf invert store 0 (pre ++ c :: post) initState
        = processLoop saf invert store (pre.length + 1) post
            (addErr (processLoop saf invert store 0 pre initState)
              (.invalidDateFormat pre.length)) := by
      rw [processLoop_append]
      rw [Nat.zero_add]
      simp only [processLoop]
      rw [stepState_rejected_nodate saf invert store pre.length c _ _ hdn hpi]
    rw [hloop]
    show ErrEntry.invalidDateFormat pre.length
      ∈ (insertPhase saf (processLoop saf invert store (pre.length + 1) post
          (addErr (processLoop saf invert store 0 pre initState)
            (.invalidDateFormat pre.length))) ins).errors2
    refine insertPhase_errors_mem saf _ ins _ ?_
    obtain ⟨t, ht⟩ := processLoop_errors_mono saf invert store post (pre.length + 1)
      (addErr (processLoop saf invert store 0 pre initState) (.invalidDateFormat pre.length))
    rw [ht]
    simp [addErr]
  · intro d hd er hrej
    rw [processItem_eq_afterDate saf invert store idx c d hd] at hrej
    exact processAfterDate_rejected_kind saf invert store idx c d er hrej

/-- C5 witness: a malformed date string is rejected and appended as an error,
and a value-rejected candidate never carries a date error. -/
theorem c5_date_validation_witness :
    (processLoop false false [] 0
          [⟨some (.str "2024-1"), some "B", some (.num 1), none⟩] initState
        = processLoop false false [] 1 [] (addErr initState (.invalidDateFormat 0)))
      ∧ ErrEntry.isDateErr (ErrEntry.invalidValue 0) = false := by
  constructor
  · exact (c5_date_validation [] false false insertAll 0 initState []
      ⟨some (.str "2024-1"), some "B", some (.num 1), none⟩).1 "2024-1" rfl (by decide)
  · exact (c5_date_validation [] false false insertAll 0 initState []
      ⟨some (.str "2024-01-05"), some "B", some (.str "abc"), none⟩).2.2.2.2.2
      ⟨2024, 1, 5⟩ (by decide) (ErrEntry.invalidValue 0) (by decide)

/--
C10: the duplicate-check query is built from the candidate's value exactly as
received from upstream, before float coercion: a candidate whose value is the
numeric string "45", run against a store already holding an otherwise
identical record with float value 45, is not matched by the duplicate check
(`skipped_count` = 0) and is accepted and inserted again (`processed_count` =
1, `added_count` = 1), whereas the identical candidate carrying the number 45
is skipped as a duplicate (`skipped_count` = 1, `added_count` = 0).
-/
theorem c10_raw_value_duplicate_check :
    (addMultipleExpensesToDb [⟨⟨2024, 1, 5⟩, "Coffee", 45, "out"⟩]
          [⟨some (.str "2024-01-05"), some "Coffee", some (.str "45"), some (.str "out")⟩]
          false false insertAll).skipped_count = 0
      ∧ (addMultipleExpensesToDb [⟨⟨2024, 1, 5⟩, "Coffee", 45, "out"⟩]
            [⟨some (.str "2024-01-05"), some "Coffee", some (.str "45"), some (.str "out")⟩]
            false false insertAll).processed_count = 1
      ∧ (addMultipleExpensesToDb [⟨⟨2024, 1, 5⟩, "Coffee", 45, "out"⟩]
            [⟨some (.str "2024-01-05"), some "Coffee", some (.str "45"), some (.str "out")⟩]
            false false insertAll).added_count = 1
      ∧ (addMultipleExpensesToDb [⟨⟨2024, 1, 5⟩, "Coffee", 45, "out"⟩]
            [⟨some (.str "2024-01-05"), some "Coffee", some (.num 45), some (.str "out")⟩]
            false false insertAll).skipped_count = 1
      ∧ (addMultipleExpensesToDb [⟨⟨2024, 1, 5⟩, "Coffee", 45, "out"⟩]
            [⟨some (.str "2024-01-05"), some "Coffee", some (.num 45), some (.str "out")⟩]
            false false insertAll).added_count = 0 := by
  refine ⟨by decide, by decide, by decide, by decide, by decide⟩

end FinanceControl
